import Mathlib

/-!
Shallow embedding of the resume-ingestion pipeline
(services/geminiService.ts, App.tsx, ResumePreviewer / CandidateTable.tsx).

Conventions of the embedding:
* JavaScript values coming back from the AI boundary are modelled by the
  inductive `Json`; a field access `obj.x` that may be `undefined` is an
  `Option Json`.
* `async` functions that can `throw` are modelled as `Except String _`
  (the `String` is the thrown `Error`'s message); total Lean functions
  model code paths on which every exception is caught.
* External capabilities (the Gemini API, pdf.js page rasterization,
  mammoth text extraction) are parameters of the definitions.
* Machine floats of the source are modelled as exact rationals (`Rat`);
  the numbers involved are small decimal literals, where the JS float
  semantics and the rational semantics agree.
-/

namespace App

/-- A JSON value, as produced by `JSON.parse` on the AI response text. -/
inductive Json where
  | null : Json
  | bool (b : Bool) : Json
  | num (q : Rat) : Json
  | str (s : String) : Json
  | arr (elems : List Json) : Json
  | obj (fields : List (String × Json)) : Json

/-- JavaScript property access `j.k`: defined for objects, `undefined`
(`none`) otherwise and for absent keys. -/
def jget (j : Json) (k : String) : Option Json :=
  match j with
  | .obj fields => (fields.find? (fun p => p.1 = k)).map Prod.snd
  | _ => none

/-- The `Candidate` record of `types.ts`, at JavaScript runtime precision:
the string-typed fields are filled by an object spread from the parsed AI
response, hence may be `undefined` (`none`) when the response omits them. -/
structure Candidate where
  id : String
  fullName : Option Json := none
  email : Option Json := none
  mobile : Option Json := none
  dob : Option Json := none
  currentCompany : Option Json := none
  designation : Option Json := none
  totalExperience : Rat := 0
  relevantExperience : Rat := 0
  skills : Option Json := none
  currentCTC : Option Json := none
  expectedCTC : Option Json := none
  noticePeriod : Option Json := none
  highestQualification : Option Json := none
  educationField : Option Json := none
  currentLocation : Option Json := none
  fileName : String := ""
  isShortlisted : Bool := false
  matchScore : Option Json := none
  matchReason : Option Json := none

/-- The lightweight candidate summary built at the start of
`analyzeCandidateMatch` (geminiService.ts). -/
structure CandidateSummary where
  skills : Option Json
  totalExperience : Rat
  designation : Option Json
  currentCompany : Option Json
  education : Option Json
  location : Option Json

/-- `candidateSummary` construction of `analyzeCandidateMatch`. -/
def summaryOf (c : Candidate) : CandidateSummary :=
  { skills := c.skills
    totalExperience := c.totalExperience
    designation := c.designation
    currentCompany := c.currentCompany
    education := c.highestQualification
    location := c.currentLocation }

/-- The AI matching capability: one `generateContent` call (plus the
`JSON.parse` of its text).  `Except.error` covers a transport rejection or
unparseable response text; `Except.ok j` is the parsed JSON. -/
def MatchOracle : Type :=
  CandidateSummary → String → Except String Json

/-- `analyzeCandidateMatch` (geminiService.ts, lines 278-329): every
failure of the AI call is caught and replaced by the sentinel pair
`matchScore = 0`, `matchReason = "Failed to analyze match."`; on success the
two fields are read off the parsed JSON.  The function is total: it never
propagates an exception to its caller. -/
def analyzeCandidateMatch (ai : MatchOracle) (c : Candidate) (jd : String) :
    Option Json × Option Json :=
  match ai (summaryOf c) jd with
  | .ok j => (jget j "matchScore", jget j "matchReason")
  | .error _ => (some (.num 0), some (.str "Failed to analyze match."))

/-- `handleJobAnalysis` (App.tsx): fans `analyzeCandidateMatch` out over all
candidates (`Promise.all`) and writes the two match fields back onto each
record.  Since `analyzeCandidateMatch` is total the surrounding
`try`/`catch` is unreachable and the batch always completes; the `length===0`
early return coincides with mapping over `[]`. -/
def handleJobAnalysis (ai : MatchOracle) (candidates : List Candidate)
    (jd : String) : List Candidate :=
  candidates.map (fun c =>
    let r := analyzeCandidateMatch ai c jd
    { c with matchScore := r.1, matchReason := r.2 })

/-! ### The free-text duration parser (`parseExperienceToNumber`) -/

/-- ASCII digit test, the `\d` character class. -/
def isDigit (c : Char) : Bool :=
  '0' ≤ c ∧ c ≤ '9'

/-- `String.prototype.toLowerCase` on one character (ASCII range; the
parsed patterns only distinguish ASCII letters). -/
def jsToLower (c : Char) : Char :=
  if 'A' ≤ c ∧ c ≤ 'Z' then Char.ofNat (c.toNat + 32) else c

/-- The `\s` character class, restricted to the whitespace characters that
occur in the modelled inputs. -/
def jsSpace (c : Char) : Bool :=
  c = ' ' ∨ c = '\t' ∨ c = '\n' ∨ c = '\r'

/-- `String.prototype.trim`. -/
def jsTrim (cs : List Char) : List Char :=
  ((cs.dropWhile jsSpace).reverse.dropWhile jsSpace).reverse

/-- Numeral value of a digit string (empty list contributes 0). -/
def digitsToNat (ds : List Char) : Nat :=
  ds.foldl (fun a c => a * 10 + (c.toNat - '0'.toNat)) 0

/-- `parseFloat` on a matched numeral `digits(.digits)?`. -/
def parseNum (cs : List Char) : Rat :=
  let intPart := cs.takeWhile (fun c => ¬ (c = '.'))
  let rest := cs.drop intPart.length
  let frac :=
    match rest with
    | '.' :: fs => fs
    | _ => []
  (digitsToNat intPart : Rat) + (digitsToNat frac : Rat) / ((10 : Rat) ^ frac.length)

/-- Match of the group `(\d+(\.\d+)?)` at the head of the input (the numeral
pattern of `parseExperienceToNumber`'s regexes): greedy digits, then a
fractional part only if at least one digit follows the dot.  Returns the
matched numeral and the remaining characters. -/
def matchNumExp (cs : List Char) : Option (List Char × List Char) :=
  let ds := cs.takeWhile isDigit
  if ds.isEmpty then none
  else
    let rest := cs.drop ds.length
    match rest with
    | '.' :: rest2 =>
      let fs := rest2.takeWhile isDigit
      if fs.isEmpty then some (ds, rest)
      else some (ds ++ '.' :: fs, rest2.drop fs.length)
    | _ => some (ds, rest)

/-- Match of the group `(\d+\.?\d*)` at the head of the input (the numeral
pattern of `parseCTC`'s regexes): greedy digits, an optional dot, then
greedy (possibly zero) fractional digits. -/
def matchNumCTC (cs : List Char) : Option (List Char × List Char) :=
  let ds := cs.takeWhile isDigit
  if ds.isEmpty then none
  else
    let rest := cs.drop ds.length
    match rest with
    | '.' :: rest2 =>
      let fs := rest2.takeWhile isDigit
      some (ds ++ '.' :: fs, rest2.drop fs.length)
    | _ => some (ds, rest)

/-- Unit-suffix test `\s*(u|…)`: after optional whitespace the next
character is the unit letter.  The regex alternations `(y|yr|year)`,
`(m|mon|month)` and `(l|lpa|lakh)` each succeed exactly when their first
single-letter alternative does, so only that letter is tested. -/
def unitFollows (u : Char) (cs : List Char) : Bool :=
  (cs.dropWhile jsSpace).head? = some u

/-- Unanchored regex search `number \s* unit`, scanning match start
positions left to right exactly as `String.prototype.match` does, and
returning the first capture group (the numeral). -/
def findUnit (matchNum : List Char → Option (List Char × List Char))
    (u : Char) : List Char → Option (List Char)
  | [] => none
  | c :: rest =>
    match matchNum (c :: rest) with
    | some (num, after) =>
      if unitFollows u after then some num else findUnit matchNum u rest
    | none => findUnit matchNum u rest

/-- First match of the bare numeral pattern anywhere in the input
(`parseCTC`'s fallback regex `/(\d+\.?\d*)/`). -/
def findFirstNum : List Char → Option (List Char)
  | [] => none
  | c :: rest =>
    match matchNumCTC (c :: rest) with
    | some (num, _) => some num
    | none => findFirstNum rest

/-- The anchored bare-number check `^(\d+(\.\d+)?)$` of
`parseExperienceToNumber`'s fallback. -/
def bareNumber (cs : List Char) : Option (List Char) :=
  match matchNumExp cs with
  | some (num, []) => some num
  | _ => none

/-- `Math.round(q * 10) / 10` on a (non-negative) value: round half away
from zero to one decimal place. -/
def roundTo1 (q : Rat) : Rat :=
  ((⌊q * 10 + 1 / 2⌋ : Int) : Rat) / 10

/-- `parseExperienceToNumber` (geminiService.ts, lines 176-204): sum an
independently matched years quantity and a months quantity divided by 12;
if neither unit matched, accept a bare number as years; round the total to
one decimal place. -/
def parseExperienceToNumber (s : String) : Rat :=
  if s = "" then 0
  else
    let lower := jsTrim (s.data.map jsToLower)
    let yearM := findUnit matchNumExp 'y' lower
    let monthM := findUnit matchNumExp 'm' lower
    let fromUnits :=
      (match yearM with | some n => parseNum n | none => 0) +
      (match monthM with | some n => parseNum n | none => 0) / 12
    let total :=
      if yearM = none ∧ monthM = none then
        match bareNumber lower with
        | some n => parseNum n
        | none => 0
      else fromUnits
    roundTo1 total

/-- `parseCTC` (App.tsx, lines 372-390): lowercase, strip `,`, `₹`, `$`,
then apply exactly one pattern in precedence order lakh > k > bare number. -/
def parseCTC (s : String) : Rat :=
  if s = "" then 0
  else
    let lower := (s.data.map jsToLower).filter
      (fun c => ¬ (c = ',' ∨ c = '₹' ∨ c = '$'))
    match findUnit matchNumCTC 'l' lower with
    | some n => parseNum n * 100000
    | none =>
      match findUnit matchNumCTC 'k' lower with
      | some n => parseNum n * 1000
      | none =>
        match findFirstNum lower with
        | some n => parseNum n
        | none => 0

/-! ### The document renderer (`fileToGenerativePart`) -/

/-- The canvas dimensions a pdf.js page yields at the fixed scale 1.5
(the external rasterization capability's output for that page). -/
structure Page where
  width : Nat
  height : Nat

/-- The input file, classified the way `fileToGenerativePart` branches on
`file.type`: an image, a PDF (with its per-page canvas dimensions), a
word-processing document, or anything else (with its mime type). -/
inductive FileData where
  | image (mime : String) : FileData
  | pdf (pages : List Page) : FileData
  | doc : FileData
  | other (mime : String) : FileData

/-- The stitched composite canvas built for a PDF: `maxWidth` ×
`totalHeight`, filled opaque white, with the rendered pages drawn top to
bottom in order. -/
structure Composite where
  width : Nat
  height : Nat
  pages : List Page
  whiteBackground : Bool

/-- The AI payload produced by `fileToGenerativePart`: the image branch
returns the file's own bytes, the PDF branch the JPEG encoding of the
composite canvas, the document branch extracted raw text. -/
inductive Payload where
  | imagePayload (mime : String) : Payload
  | compositePayload (c : Composite) : Payload
  | textPayload : Payload

/-- `pagesToParse` (geminiService.ts, lines 56-59): an absent or empty
selection defaults to all pages `[1, …, numPages]`. -/
def pagesToParse (pages : Option (List Nat)) (numPages : Nat) : List Nat :=
  match pages with
  | some ps => if ps.length > 0 then ps else List.range' 1 numPages
  | none => List.range' 1 numPages

/-- The pages the render loop actually rasterizes: the selection in its
given order with out-of-range page numbers skipped
(`if (pageNum > pdf.numPages || pageNum < 1) continue`). -/
def renderedPages (pdfPages : List Page) (ps : List Nat) : List Page :=
  ps.filterMap (fun n =>
    if 1 ≤ n ∧ n ≤ pdfPages.length then pdfPages[n - 1]? else none)

/-- The progress value reported after the `i`-th successfully rendered page
out of `total` selected ones: `5 + Math.round((i / total) * 75)`, the
rounding computed exactly on rationals. -/
def pageProgress (total i : Nat) : Nat :=
  5 + (150 * i + total) / (2 * total)

/-- `fileToGenerativePart` (geminiService.ts, lines 40-132), returning the
payload (or the thrown error's message) together with the list of progress
values passed to `onProgress`, in call order. -/
def fileToGenerativePart (file : FileData) (pages : Option (List Nat)) :
    Except String Payload × List Nat :=
  match file with
  | .image mime => (.ok (.imagePayload mime), [5, 80])
  | .pdf pdfPages =>
    let ps := pagesToParse pages pdfPages.length
    let rendered := renderedPages pdfPages ps
    let trace := 5 :: (List.range' 1 rendered.length).map (pageProgress ps.length)
    if rendered.isEmpty then
      (.error "Could not render any PDF pages.", trace)
    else
      (.ok (.compositePayload
        { width := rendered.foldl (fun a p => max a p.width) 0
          height := (rendered.map Page.height).sum
          pages := rendered
          whiteBackground := true }), trace ++ [80])
  | .doc => (.ok .textPayload, [5, 80])
  | .other mime => (.error ("Unsupported file type: " ++ mime), [5])

/-- `handleConfirm` of the resume previewer (CandidateTable.tsx/
ResumePreviewer, lines 546-552): for a PDF the currently selected pages are
passed on sorted ascending; other file types confirm without a selection. -/
def handleConfirm (isPdf : Bool) (selectedPages : List Nat) :
    Option (List Nat) :=
  if isPdf then some (selectedPages.mergeSort (· ≤ ·)) else none

/-! ### The resume extractor (`parseResume`) -/

/-- The outcome of the extraction AI call at the `response.text` boundary:
a transport rejection, text `JSON.parse` cannot handle, or the parsed JSON
value (an empty `response.text` parses as the JSON object produced by the
source's `|| "{}"` fallback). -/
inductive AiTextResult where
  | transportFail (msg : String) : AiTextResult
  | invalidJson : AiTextResult
  | json (j : Json) : AiTextResult

/-- `parseExperienceToNumber(parsedJson.field)` as invoked on a raw JSON
field: `undefined`, `null`, `false`, `0` and `""` are falsy and yield 0
immediately; a string is parsed; any other truthy non-string value makes
`.toLowerCase()` throw a TypeError, which the enclosing catch turns into a
message. -/
def expFieldValue : Option Json → Except String Rat
  | none => .ok 0
  | some .null => .ok 0
  | some (.bool b) => if b then .error "expString.toLowerCase is not a function" else .ok 0
  | some (.num q) =>
    if q = 0 then .ok 0 else .error "expString.toLowerCase is not a function"
  | some (.str s) => .ok (parseExperienceToNumber s)
  | some (.arr _) => .error "expString.toLowerCase is not a function"
  | some (.obj _) => .error "expString.toLowerCase is not a function"

/-- `parseResume` (geminiService.ts, lines 207-265) after the rendering and
AI-call results are in hand: any failure inside the `try` is wrapped by the
outer catch as `AI processing failed: …`; unparseable response text raises
the dedicated invalid-format message; a successfully parsed JSON object is
spread into the `Candidate` with the generated id, the two experience
fields post-processed, the file name attached and `isShortlisted = false`.
No validation of required schema fields happens here: absent fields stay
`undefined` on the record. -/
def parseResume (renderResult : Except String Payload) (ai : AiTextResult)
    (fileName newId : String) : Except String Candidate :=
  match renderResult with
  | .error m => .error ("AI processing failed: " ++ m)
  | .ok _ =>
    match ai with
    | .transportFail m => .error ("AI processing failed: " ++ m)
    | .invalidJson =>
      .error "AI processing failed: The AI model returned an invalid data format. Please try again."
    | .json j =>
      match expFieldValue (jget j "totalExperience"),
            expFieldValue (jget j "relevantExperience") with
      | .ok te, .ok re =>
        .ok { id := newId
              fullName := jget j "fullName"
              email := jget j "email"
              mobile := jget j "mobile"
              dob := jget j "dob"
              currentCompany := jget j "currentCompany"
              designation := jget j "designation"
              totalExperience := te
              relevantExperience := re
              skills := jget j "skills"
              currentCTC := jget j "currentCTC"
              expectedCTC := jget j "expectedCTC"
              noticePeriod := jget j "noticePeriod"
              highestQualification := jget j "highestQualification"
              educationField := jget j "educationField"
              currentLocation := jget j "currentLocation"
              fileName := fileName
              isShortlisted := false }
      | .error m, _ => .error ("AI processing failed: " ++ m)
      | _, .error m => .error ("AI processing failed: " ++ m)

/-- The full progress trace one file's `parseResume` run delivers: the
renderer's values, then 95 (AI call complete) and 100 (done) on success. -/
def parseResumeProgress (file : FileData) (pages : Option (List Nat)) :
    List Nat :=
  match fileToGenerativePart file pages with
  | (.ok _, t) => t ++ [95, 100]
  | (.error _, t) => t

/-! ### The ingestion queue (App.tsx state machine) -/

/-- The three `FileStatus.status` literals of `types.ts`. -/
inductive StatusTag where
  | parsing : StatusTag
  | success : StatusTag
  | error : StatusTag
deriving DecidableEq

/-- `FileStatus` of `types.ts`. -/
structure FileStatus where
  status : StatusTag
  progress : Nat
  errMsg : Option String := none

/-- `Map.has` on the status map (insertion-ordered association list, the
JavaScript `Map` representation). -/
def mapHas (m : List (String × FileStatus)) (k : String) : Bool :=
  m.any (fun p => p.1 = k)

/-- `Map.get`. -/
def mapGet (m : List (String × FileStatus)) (k : String) : Option FileStatus :=
  (m.find? (fun p => p.1 = k)).map Prod.snd

/-- `Map.set`: update in place if the key exists, else append. -/
def mapSet (m : List (String × FileStatus)) (k : String) (v : FileStatus) :
    List (String × FileStatus) :=
  if mapHas m k then m.map (fun p => if p.1 = k then (k, v) else p)
  else m ++ [(k, v)]

/-- The App component state relevant to ingestion (App.tsx):
`candidates`, `fileStatuses`, `fileQueue` (files by name),
`currentFileForPreview` and the `isAutoParse` toggle.  `invoked` is a ghost
log of every `processFile` call (i.e., every dispatch of the extractor),
used to observe that cancelled files never reach it. -/
structure AppState where
  candidates : List Candidate
  fileStatuses : List (String × FileStatus)
  fileQueue : List String
  currentFileForPreview : Option String
  isAutoParse : Bool
  invoked : List String

/-- The initial component state (all collections empty, manual mode). -/
def s0 : AppState :=
  { candidates := []
    fileStatuses := []
    fileQueue := []
    currentFileForPreview := none
    isAutoParse := false
    invoked := [] }

/-- The events that drive the ingestion state: a `handleFiles` upload, one
run of the queue-manager effect, preview confirm/cancel, one `onProgress`
callback, and the completion continuation of a dispatched `processFile`
(with the `parseResume` outcome). -/
inductive Event where
  | upload (names : List String) : Event
  | managerStep : Event
  | previewConfirm : Event
  | previewCancel : Event
  | progressUpdate (name : String) (p : Nat) : Event
  | complete (name : String) (outcome : Except String Candidate) : Event

/-- The synchronous prefix of `processFile` (App.tsx, line 215): record a
`parsing` status at progress 0; the ghost log notes the invocation. -/
def dispatchFile (s : AppState) (name : String) : AppState :=
  { s with
    fileStatuses := mapSet s.fileStatuses name ⟨.parsing, 0, none⟩
    invoked := s.invoked ++ [name] }

/-- One state transition.  `upload` is `handleFiles` (lines 201-212): names
already present in the status map are dropped, the rest are appended to the
queue.  `managerStep` is the queue-manager effect (lines 244-265).
`previewConfirm`/`previewCancel` are the two preview handlers (lines
268-279).  `complete` is the asynchronous remainder of `processFile` (lines
221-240): terminal status, candidate append on success, preview cleared if
it was this file, and all queue entries of this name removed. -/
def step (s : AppState) : Event → AppState
  | .upload names =>
    let newFiles := names.filter (fun n => ¬ mapHas s.fileStatuses n)
    { s with fileQueue := s.fileQueue ++ newFiles }
  | .managerStep =>
    match s.fileQueue with
    | [] => s
    | next :: _ =>
      if s.currentFileForPreview.isSome ∧ ¬ s.isAutoParse then s
      else if (mapGet s.fileStatuses next).any (fun st => st.status = .parsing) then s
      else if s.isAutoParse then dispatchFile s next
      else if s.currentFileForPreview.isNone then
        { s with currentFileForPreview := some next }
      else s
  | .previewConfirm =>
    match s.currentFileForPreview with
    | some f => dispatchFile s f
    | none => s
  | .previewCancel =>
    match s.currentFileForPreview with
    | some _ =>
      { s with fileQueue := s.fileQueue.drop 1, currentFileForPreview := none }
    | none => s
  | .progressUpdate name p =>
    { s with fileStatuses := mapSet s.fileStatuses name ⟨.parsing, p, none⟩ }
  | .complete name outcome =>
    let s1 :=
      match outcome with
      | .ok cand =>
        { s with
          candidates := s.candidates ++ [cand]
          fileStatuses := mapSet s.fileStatuses name ⟨.success, 100, none⟩ }
      | .error m =>
        { s with
          fileStatuses := mapSet s.fileStatuses name ⟨.error, 100, some m⟩ }
    { s1 with
      currentFileForPreview :=
        if s.currentFileForPreview = some name then none
        else s.currentFileForPreview
      fileQueue := s.fileQueue.filter (fun f => ¬ (f = name)) }

/-! ## Association-list lemmas for the JavaScript `Map` model -/

theorem mapGet_mapSet_self (m : List (String × FileStatus)) (k : String) (v : FileStatus) :
    mapGet (mapSet m k v) k = some v := by
  unfold mapSet mapGet mapHas
  split
  · rename_i hhas
    rw [List.find?_map]
    have hex : ∃ x ∈ m, x.1 = k := by simpa using hhas
    have hs : (m.find? (fun p => decide (p.1 = k))).isSome := by
      rw [List.find?_isSome]; simpa using hex
    obtain ⟨q, hq⟩ := Option.isSome_iff_exists.mp hs
    have hqk : q.1 = k := by simpa using List.find?_some hq
    have heq : (List.find? ((fun p => decide (p.1 = k)) ∘ fun p => if p.1 = k then (k, v) else p) m)
        = some q := by
      rw [← hq]; congr 1; funext p
      by_cases h : p.1 = k <;> simp [h]
    rw [heq]
    simp [hqk]
  · rename_i hno
    rw [List.find?_append]
    have hm : m.find? (fun p => decide (p.1 = k)) = none := by
      rw [List.find?_eq_none]
      intro x hx
      by_contra hc
      exact hno (by rw [List.any_eq_true]; exact ⟨x, hx, by simpa using hc⟩)
    simp [hm]

theorem mapGet_mapSet_ne (m : List (String × FileStatus)) (k k' : String) (v : FileStatus)
    (h : ¬ k' = k) : mapGet (mapSet m k v) k' = mapGet m k' := by
  unfold mapSet mapGet mapHas
  split
  · rw [List.find?_map]
    have hpred : ((fun p => decide (p.1 = k')) ∘ fun p => if p.1 = k then (k, v) else p)
        = (fun p : String × FileStatus => decide (p.1 = k')) := by
      funext p
      by_cases hp : p.1 = k <;> simp [hp]
    rw [hpred]
    cases hf : m.find? (fun p => decide (p.1 = k')) with
    | none => simp
    | some q =>
      have hq : q.1 = k' := by simpa using List.find?_some hf
      have hqk : ¬ q.1 = k := by rw [hq]; exact h
      simp [hqk]
  · rw [List.find?_append]
    have h1 : List.find? (fun p => decide (p.1 = k')) [(k, v)] = none := by
      simp [List.find?_eq_none]
      exact fun e => h e.symm
    rw [h1]
    simp

theorem mapSet_keys_nodup (m : List (String × FileStatus)) (k : String) (v : FileStatus)
    (h : (m.map Prod.fst).Nodup) : ((mapSet m k v).map Prod.fst).Nodup := by
  unfold mapSet
  split
  · have heq : (m.map (fun p => if p.1 = k then (k, v) else p)).map Prod.fst = m.map Prod.fst := by
      rw [List.map_map]
      apply List.map_congr_left
      intro p _
      by_cases hp : p.1 = k <;> simp [hp]
    rw [heq]; exact h
  · rename_i hno
    have hk : k ∉ m.map Prod.fst := by
      intro hkm
      obtain ⟨p, hp, hpk⟩ := List.mem_map.mp hkm
      exact hno (by unfold mapHas; rw [List.any_eq_true]; exact ⟨p, hp, by simpa using hpk⟩)
    rw [List.map_append]
    simp only [List.map_cons, List.map_nil]
    rw [List.nodup_append]
    refine ⟨h, List.nodup_singleton k, ?_⟩
    intro a ha hb
    rw [List.mem_singleton] at hb
    exact hk (hb ▸ ha)

/-! ## Claim theorems -/

/-- Claim C1: for every candidate list and job description, the batch match
scoring (`handleJobAnalysis` over `analyzeCandidateMatch`) is a total
function — no per-candidate failure escapes to the caller — producing one
result per candidate; a candidate whose AI call succeeds keeps the returned
matchScore/matchReason, and a candidate whose AI call fails alone degrades
to matchScore 0 / "Failed to analyze match.", independently of every other
candidate's outcome. -/
theorem matchScorer_isolates (ai : MatchOracle) (cands : List Candidate)
    (jd : String) (i : Nat) (c : Candidate) (hc : cands[i]? = some c) :
    (handleJobAnalysis ai cands jd).length = cands.length ∧
    (∀ j, ai (summaryOf c) jd = .ok j →
      (handleJobAnalysis ai cands jd)[i]? =
        some { c with matchScore := jget j "matchScore",
                      matchReason := jget j "matchReason" }) ∧
    (∀ e, ai (summaryOf c) jd = .error e →
      (handleJobAnalysis ai cands jd)[i]? =
        some { c with matchScore := some (.num 0),
                      matchReason := some (.str "Failed to analyze match.") }) := by
  refine ⟨by simp [handleJobAnalysis], ?_, ?_⟩
  · intro j hj
    simp [handleJobAnalysis, List.getElem?_map, hc, analyzeCandidateMatch, hj]
  · intro e he
    simp [handleJobAnalysis, List.getElem?_map, hc, analyzeCandidateMatch, he]

/-- Witness for C1: a concrete one-candidate batch whose AI call fails. -/
theorem matchScorer_isolates_witness :
    (handleJobAnalysis (fun _ _ => .error "boom") [{ id := "c1" }] "jd")[0]? =
      some { id := "c1", matchScore := some (.num 0),
             matchReason := some (.str "Failed to analyze match.") } :=
  (matchScorer_isolates (fun _ _ => .error "boom") [{ id := "c1" }] "jd" 0
    { id := "c1" } rfl).2.2 "boom" rfl

/-- Counterexample to claim C2 as stated: in manual mode, uploading
"a.pdf", letting the queue manager run (the file becomes the pending
preview but acquires no FileStatus), then uploading "a.pdf" again leaves
two queue entries for the name — the dedup check consults only the status
map, which is still empty. -/
theorem dedup_cex :
    (step (step (step s0 (.upload ["a.pdf"])) .managerStep)
        (.upload ["a.pdf"])).fileQueue.count "a.pdf" = 2 := by
  rfl

/-- Claim C2 (amended): a name maps to at most one FileStatus entry (every
transition preserves key uniqueness of the status map), and an upload of a
name already present in the status map is a no-op; dedup is only by
status-map presence, not by queue membership. -/
theorem dedup_by_status (s : AppState) (name : String) (e : Event)
    (h : mapHas s.fileStatuses name = true) :
    step s (.upload [name]) = s ∧
    ((s.fileStatuses.map Prod.fst).Nodup →
      (((step s e).fileStatuses.map Prod.fst).Nodup)) := by
  constructor
  · show ({ s with fileQueue := s.fileQueue ++ List.filter _ [name] } = s)
    simp [h]
  · intro hnd
    cases e <;> simp only [step, dispatchFile] <;> repeat' split
    all_goals first
      | exact hnd
      | exact mapSet_keys_nodup _ _ _ hnd

/-- Witness for C2: re-uploading a file that is recorded as parsing. -/
theorem dedup_by_status_witness :
    step { s0 with fileStatuses := [("a.pdf", ⟨.parsing, 0, none⟩)] }
        (.upload ["a.pdf"])
      = { s0 with fileStatuses := [("a.pdf", ⟨.parsing, 0, none⟩)] } :=
  (dedup_by_status { s0 with fileStatuses := [("a.pdf", ⟨.parsing, 0, none⟩)] }
    "a.pdf" .managerStep rfl).1

/-- Counterexample to claim C3 as stated: the syntactically valid JSON
response `{}` misses every required schema field, yet extraction succeeds,
yielding a Candidate whose fields are all `undefined`/defaulted instead of
failing with an invalid-AI-response error. -/
theorem parseResume_missing_cex :
    parseResume (.ok .textPayload) (.json (.obj [])) "r.pdf" "id-1" =
      .ok { id := "id-1", fileName := "r.pdf" } ∧
    (∃ cand, parseResume (.ok .textPayload) (.json (.obj [])) "r.pdf" "id-1" = .ok cand ∧
      cand.fullName = none ∧ cand.email = none ∧ cand.skills = none) := by
  constructor
  · rfl
  · exact ⟨{ id := "id-1", fileName := "r.pdf" }, rfl, rfl, rfl, rfl⟩

/-- Claim C3 (amended): only response text that fails `JSON.parse` is
rejected (with the invalid-data-format message, wrapped by the outer
catch); any syntactically valid JSON response — including one missing
required schema fields — produces a Candidate whose absent fields remain
`undefined`, with the generated id, attached file name and
`isShortlisted = false`; schema enforcement is delegated to the AI
capability's `responseSchema` and not re-checked locally. -/
theorem parseResume_validation (payload : Payload) (fn newId : String) :
    (parseResume (.ok payload) .invalidJson fn newId =
      .error "AI processing failed: The AI model returned an invalid data format. Please try again.") ∧
    (∀ j : Json,
      (∃ te, expFieldValue (jget j "totalExperience") = .ok te) →
      (∃ re, expFieldValue (jget j "relevantExperience") = .ok re) →
      ∃ cand, parseResume (.ok payload) (.json j) fn newId = .ok cand ∧
        cand.fullName = jget j "fullName" ∧
        cand.id = newId ∧ cand.fileName = fn ∧ cand.isShortlisted = false) := by
  constructor
  · rfl
  · intro j ⟨te, hte⟩ ⟨re, hre⟩
    refine ⟨{ id := newId, fullName := jget j "fullName", email := jget j "email",
              mobile := jget j "mobile", dob := jget j "dob",
              currentCompany := jget j "currentCompany", designation := jget j "designation",
              totalExperience := te, relevantExperience := re, skills := jget j "skills",
              currentCTC := jget j "currentCTC", expectedCTC := jget j "expectedCTC",
              noticePeriod := jget j "noticePeriod",
              highestQualification := jget j "highestQualification",
              educationField := jget j "educationField",
              currentLocation := jget j "currentLocation",
              fileName := fn, isShortlisted := false }, ?_, rfl, rfl, rfl, rfl⟩
    simp [parseResume, hte, hre]

/-- Witness for C3: a JSON object carrying only `fullName`. -/
theorem parseResume_validation_witness :
    ∃ cand, parseResume (.ok .textPayload)
        (.json (.obj [("fullName", .str "Jane")])) "f.pdf" "id9" = .ok cand ∧
      cand.fullName = jget (.obj [("fullName", .str "Jane")]) "fullName" ∧
      cand.id = "id9" ∧ cand.fileName = "f.pdf" ∧ cand.isShortlisted = false :=
  (parseResume_validation .textPayload "f.pdf" "id9").2
    (.obj [("fullName", .str "Jane")]) ⟨0, rfl⟩ ⟨0, rfl⟩

/-! ## Renderer lemmas -/

theorem renderedPages_eq_filter (pdfPages : List Page) (ps : List Nat) :
    renderedPages pdfPages ps =
      (ps.filter (fun n => decide (1 ≤ n ∧ n ≤ pdfPages.length))).filterMap
        (fun n => pdfPages[n - 1]?) := by
  rw [renderedPages, List.filterMap_filter]
  apply List.filterMap_congr
  intro n _
  by_cases h : 1 ≤ n ∧ n ≤ pdfPages.length <;> simp [h]

theorem le_foldl_max (l : List Page) (a : Nat) :
    a ≤ l.foldl (fun acc p => max acc p.width) a ∧
    ∀ p ∈ l, p.width ≤ l.foldl (fun acc p => max acc p.width) a := by
  induction l generalizing a with
  | nil => simp
  | cons q rest ih =>
    simp only [List.foldl_cons]
    constructor
    · exact le_trans (le_max_left a q.width) (ih (max a q.width)).1
    · intro p hp
      rcases List.mem_cons.mp hp with h | h
      · subst h
        exact le_trans (le_max_right a p.width) (ih (max a p.width)).1
      · exact (ih (max a q.width)).2 p h

/-- Claim C4: the PDF render output is determined by the valid selected
page numbers (out-of-range numbers silently skipped): when at least one
selected page is valid the payload is one composite whose width is an
upper bound of (and the fold-maximum of) the rendered widths, whose height
is the sum of their heights, pages stacked in selection-list order on a
white background; when no selected page is valid it fails with the render
error. -/
theorem renderer_composite_spec (pdfPages : List Page) (sel : Option (List Nat)) :
    (∀ vpages,
      vpages = ((pagesToParse sel pdfPages.length).filter
          (fun n => decide (1 ≤ n ∧ n ≤ pdfPages.length))).filterMap
          (fun n => pdfPages[n - 1]?) →
      (vpages ≠ [] →
        (fileToGenerativePart (.pdf pdfPages) sel).1 = .ok (.compositePayload
          { width := vpages.foldl (fun acc p => max acc p.width) 0
            height := (vpages.map Page.height).sum
            pages := vpages
            whiteBackground := true }) ∧
        ∀ p ∈ vpages, p.width ≤ vpages.foldl (fun acc p => max acc p.width) 0) ∧
      (vpages = [] →
        (fileToGenerativePart (.pdf pdfPages) sel).1 =
          .error "Could not render any PDF pages.")) := by
  intro vpages hv
  have hrend : renderedPages pdfPages (pagesToParse sel pdfPages.length) = vpages := by
    rw [renderedPages_eq_filter, hv]
  constructor
  · intro hne
    constructor
    · simp only [fileToGenerativePart, hrend]
      rw [if_neg (by simpa [List.isEmpty_iff] using hne)]
    · exact fun p hp => (le_foldl_max vpages 0).2 p hp
  · intro hnil
    simp only [fileToGenerativePart, hrend]
    rw [if_pos (by simpa [List.isEmpty_iff] using hnil)]

/-- Witness for C4: a 3-page document with selection [1, 3] — the
composite stacks exactly pages 1 and 3, height 200 + 80. -/
theorem renderer_composite_spec_witness :
    (fileToGenerativePart
        (.pdf [⟨100, 200⟩, ⟨50, 60⟩, ⟨70, 80⟩]) (some [1, 3])).1 =
      .ok (.compositePayload
        { width := 100, height := 280,
          pages := [⟨100, 200⟩, ⟨70, 80⟩], whiteBackground := true }) := by
  have h := (renderer_composite_spec [⟨100, 200⟩, ⟨50, 60⟩, ⟨70, 80⟩]
    (some [1, 3]) [⟨100, 200⟩, ⟨70, 80⟩] rfl).1 (List.cons_ne_nil _ _)
  exact h.1

/-- Claim C5: a failing extraction is caught at the queue boundary — the
completion transition with an error outcome is a total function that sets
that file's status to `error` with the failure's message at progress 100,
leaves the Candidate collection untouched, leaves every other file's
status untouched, removes only that file's queue entries, and dispatches
nothing new. -/
theorem processFile_error_isolated (s : AppState) (name msg k : String)
    (hk : ¬ k = name) :
    mapGet (step s (.complete name (.error msg))).fileStatuses name
        = some ⟨.error, 100, some msg⟩ ∧
    (step s (.complete name (.error msg))).candidates = s.candidates ∧
    mapGet (step s (.complete name (.error msg))).fileStatuses k
        = mapGet s.fileStatuses k ∧
    (step s (.complete name (.error msg))).fileQueue
        = s.fileQueue.filter (fun f => ¬ (f = name)) ∧
    (step s (.complete name (.error msg))).invoked = s.invoked := by
  refine ⟨?_, ?_, ?_, ?_, ?_⟩
  · simp only [step]
    exact mapGet_mapSet_self _ _ _
  · simp [step]
  · simp only [step]
    exact mapGet_mapSet_ne _ _ _ _ hk
  · simp [step]
  · simp [step]

/-- Witness for C5 at a concrete state and failure. -/
theorem processFile_error_isolated_witness :
    mapGet (step s0 (.complete "a.pdf" (.error "boom"))).fileStatuses "a.pdf"
        = some ⟨.error, 100, some "boom"⟩ ∧
    (step s0 (.complete "a.pdf" (.error "boom"))).candidates = s0.candidates ∧
    mapGet (step s0 (.complete "a.pdf" (.error "boom"))).fileStatuses "b.pdf"
        = mapGet s0.fileStatuses "b.pdf" ∧
    (step s0 (.complete "a.pdf" (.error "boom"))).fileQueue
        = s0.fileQueue.filter (fun f => ¬ (f = "a.pdf")) ∧
    (step s0 (.complete "a.pdf" (.error "boom"))).invoked = s0.invoked :=
  processFile_error_isolated s0 "a.pdf" "boom" "b.pdf" (by decide)

/-- Claim C6: in manual mode at most one file awaits preview at a time
(the preview slot is a single `Option`); of two uploaded files only the
first becomes awaiting-preview, and while it is pending — even after it is
confirmed and parsing — the queue manager presents nothing else; only
after its parse completes (terminal status) does the second file become
awaiting-preview; cancelling instead removes the file from the queue with
no FileStatus ever recorded for it and without invoking the extractor,
after which the second file is presented. -/
theorem manualQueue_one_preview (a b : String) (hab : ¬ b = a)
    (outcome : Except String Candidate) :
    (step s0 (.upload [a, b])).fileQueue = [a, b] ∧
    (step s0 (.upload [a, b])).currentFileForPreview = none ∧
    (step (step s0 (.upload [a, b])) .managerStep).currentFileForPreview = some a ∧
    (step (step (step s0 (.upload [a, b])) .managerStep) .managerStep
      = step (step s0 (.upload [a, b])) .managerStep) ∧
    (let s3 := step (step (step s0 (.upload [a, b])) .managerStep) .previewConfirm
     mapGet s3.fileStatuses a = some ⟨.parsing, 0, none⟩ ∧
     s3.currentFileForPreview = some a ∧
     step s3 .managerStep = s3 ∧
     (let s4 := step s3 (.complete a outcome)
      s4.currentFileForPreview = none ∧
      s4.fileQueue = [b] ∧
      (step s4 .managerStep).currentFileForPreview = some b)) ∧
    (let c2 := step (step (step s0 (.upload [a, b])) .managerStep) .previewCancel
     c2.fileQueue = [b] ∧
     c2.fileStatuses = [] ∧
     c2.invoked = [] ∧
     (step c2 .managerStep).currentFileForPreview = some b) := by
  have hba : ¬ a = b := fun e => hab e.symm
  cases outcome <;>
    simp [step, s0, dispatchFile, mapSet, mapHas, mapGet, hab, hba, List.filter]

/-- Witness for C6 at concrete file names. -/
theorem manualQueue_one_preview_witness :
    (step (step s0 (.upload ["a.pdf", "b.pdf"])) .managerStep).currentFileForPreview
      = some "a.pdf" :=
  (manualQueue_one_preview "a.pdf" "b.pdf" (by decide) (.ok { id := "x" })).2.2.1

/-! ## Progress-trace lemmas -/

theorem pageProgress_mono (T : Nat) {i j : Nat} (hij : i ≤ j) :
    pageProgress T i ≤ pageProgress T j :=
  Nat.add_le_add_left (Nat.div_le_div_right (by omega)) 5

theorem pageProgress_ge_5 (T i : Nat) : 5 ≤ pageProgress T i :=
  Nat.le_add_right 5 _

theorem pageProgress_le_80 (T i : Nat) (hT : 1 ≤ T) (hi : i ≤ T) :
    pageProgress T i ≤ 80 := by
  unfold pageProgress
  have hlt : (150 * i + T) / (2 * T) < 76 := by
    rw [Nat.div_lt_iff_lt_mul (by omega : 0 < 2 * T)]
    omega
  omega

theorem pairwise_lt_range'_own (s k : Nat) :
    List.Pairwise (· < ·) (List.range' s k) := by
  induction k generalizing s with
  | zero => simp
  | succ n ih =>
    rw [List.range'_succ]
    refine List.Pairwise.cons ?_ (ih (s + 1))
    intro b hb
    have := List.mem_range'_1.mp hb
    omega

theorem sorted_map_pageProgress (T s k : Nat) :
    List.Sorted (· ≤ ·) ((List.range' s k).map (pageProgress T)) :=
  List.Pairwise.map _ (fun _ _ hab => pageProgress_mono T (le_of_lt hab))
    (pairwise_lt_range'_own s k)

/-- Claim C9: on every file whose rendering succeeds, the delivered
progress sequence (renderer values followed by the 95 and 100 of the AI
steps) is non-decreasing, all values are integers within [0, 100], the
first callback is 5, and the renderer's last callback before returning is
80 — leaving the range above 80 to the downstream AI-call steps. -/
theorem progress_trace_spec (file : FileData) (sel : Option (List Nat))
    (h : (fileToGenerativePart file sel).1.isOk = true) :
    parseResumeProgress file sel = (fileToGenerativePart file sel).2 ++ [95, 100] ∧
    List.Sorted (· ≤ ·) (parseResumeProgress file sel) ∧
    (∀ v ∈ parseResumeProgress file sel, v ≤ 100) ∧
    (parseResumeProgress file sel).head? = some 5 ∧
    (fileToGenerativePart file sel).2.getLast? = some 80 := by
  cases file with
  | image mime =>
    refine ⟨rfl, ?_, ?_, rfl, rfl⟩
    · show List.Sorted (· ≤ ·) [5, 80, 95, 100]
      decide
    · show ∀ v ∈ [5, 80, 95, 100], v ≤ 100
      decide
  | doc =>
    refine ⟨rfl, ?_, ?_, rfl, rfl⟩
    · show List.Sorted (· ≤ ·) [5, 80, 95, 100]
      decide
    · show ∀ v ∈ [5, 80, 95, 100], v ≤ 100
      decide
  | other mime =>
    exact absurd h (by simp [fileToGenerativePart, Except.isOk, Except.toBool])
  | pdf pdfPages =>
    by_cases hre :
        (renderedPages pdfPages (pagesToParse sel pdfPages.length)).isEmpty = true
    · exfalso
      simp only [fileToGenerativePart] at h
      rw [if_pos hre] at h
      simp [Except.isOk, Except.toBool] at h
    · have hkT : (renderedPages pdfPages (pagesToParse sel pdfPages.length)).length
          ≤ (pagesToParse sel pdfPages.length).length := by
        rw [renderedPages]
        exact List.length_filterMap_le _ _
      have hk1 : 1 ≤ (renderedPages pdfPages (pagesToParse sel pdfPages.length)).length := by
        have hne : renderedPages pdfPages (pagesToParse sel pdfPages.length) ≠ [] := by
          simpa [List.isEmpty_iff] using hre
        have := List.length_pos.mpr hne
        omega
      have hT1 : 1 ≤ (pagesToParse sel pdfPages.length).length := le_trans hk1 hkT
      have heq : fileToGenerativePart (.pdf pdfPages) sel =
          (.ok (.compositePayload
            { width := (renderedPages pdfPages (pagesToParse sel pdfPages.length)).foldl
                (fun a p => max a p.width) 0
              height := ((renderedPages pdfPages (pagesToParse sel pdfPages.length)).map
                Page.height).sum
              pages := renderedPages pdfPages (pagesToParse sel pdfPages.length)
              whiteBackground := true }),
           (5 :: (List.range' 1
              (renderedPages pdfPages (pagesToParse sel pdfPages.length)).length).map
              (pageProgress (pagesToParse sel pdfPages.length).length)) ++ [80]) := by
        simp only [fileToGenerativePart]
        rw [if_neg (by simp [hre])]
      have htrace : (fileToGenerativePart (.pdf pdfPages) sel).2 =
          (5 :: (List.range' 1
            (renderedPages pdfPages (pagesToParse sel pdfPages.length)).length).map
            (pageProgress (pagesToParse sel pdfPages.length).length)) ++ [80] := by
        rw [heq]
      have hprog : parseResumeProgress (.pdf pdfPages) sel =
          ((5 :: (List.range' 1
            (renderedPages pdfPages (pagesToParse sel pdfPages.length)).length).map
            (pageProgress (pagesToParse sel pdfPages.length).length)) ++ [80]) ++ [95, 100] := by
        rw [parseResumeProgress, heq]
      have hmemle : ∀ v ∈ (List.range' 1
          (renderedPages pdfPages (pagesToParse sel pdfPages.length)).length).map
          (pageProgress (pagesToParse sel pdfPages.length).length), 5 ≤ v ∧ v ≤ 80 := by
        intro v hv
        obtain ⟨i, hi, hvi⟩ := List.mem_map.mp hv
        have hir := List.mem_range'_1.mp hi
        subst hvi
        refine ⟨pageProgress_ge_5 _ i, pageProgress_le_80 _ i hT1 (by omega)⟩
      refine ⟨?_, ?_, ?_, ?_, ?_⟩
      · rw [hprog, htrace]
      · rw [hprog]
        simp only [List.cons_append]
        apply List.sorted_cons.mpr
        constructor
        · intro b hb
          simp only [List.mem_append, List.mem_singleton, List.mem_cons,
            List.not_mem_nil, or_false] at hb
          rcases hb with (hb | hb) | (hb | hb)
          · exact (hmemle b hb).1
          · omega
          · omega
          · omega
        · rw [List.Sorted, List.pairwise_append]
          refine ⟨?_, by decide, ?_⟩
          · rw [List.pairwise_append]
            refine ⟨sorted_map_pageProgress _ 1 _, by decide, ?_⟩
            intro x hx y hy
            have := (hmemle x hx).2
            simp only [List.mem_singleton] at hy
            omega
          · intro x hx y hy
            simp only [List.mem_append, List.mem_singleton] at hx
            simp only [List.mem_cons, List.not_mem_nil, or_false] at hy
            rcases hx with hx | hx
            · have := (hmemle x hx).2
              rcases hy with hy | hy <;> omega
            · rcases hy with hy | hy <;> omega
      · rw [hprog]
        intro v hv
        simp only [List.cons_append, List.mem_cons, List.mem_append,
          List.mem_singleton, List.not_mem_nil, or_false] at hv
        rcases hv with hv | (hv | hv) | (hv | hv)
        · omega
        · exact le_trans (hmemle v hv).2 (by omega)
        · omega
        · omega
        · omega
      · rw [hprog]; rfl
      · rw [htrace]
        exact List.getLast?_concat _

/-- Witness for C9: a one-page PDF. -/
theorem progress_trace_spec_witness :
    List.Sorted (· ≤ ·) (parseResumeProgress (.pdf [⟨10, 20⟩]) none) :=
  (progress_trace_spec (.pdf [⟨10, 20⟩]) none rfl).2.1

/-- Claim C10: rendering a PDF with an explicitly empty page selection is
identical to rendering with no selection — both default to all pages (the
previewer's confirm handler passes the empty sorted selection through) —
so an empty confirmed selection never by itself causes the zero-pages
render error on a nonempty document. -/
theorem emptySelection_defaults_allPages (pdfPages : List Page) :
    handleConfirm true [] = some [] ∧
    fileToGenerativePart (.pdf pdfPages) (some []) =
      fileToGenerativePart (.pdf pdfPages) none ∧
    (pdfPages ≠ [] →
      ((fileToGenerativePart (.pdf pdfPages) (some [])).1.isOk = true)) := by
  refine ⟨by simp [handleConfirm], ?_, ?_⟩
  · have h : pagesToParse (some []) pdfPages.length = pagesToParse none pdfPages.length := by
      simp [pagesToParse]
    simp only [fileToGenerativePart, h]
  · intro hne
    cases pdfPages with
    | nil => exact absurd rfl hne
    | cons p rest =>
      have hmem : p ∈ renderedPages (p :: rest) (pagesToParse (some []) (p :: rest).length) := by
        rw [renderedPages]
        apply List.mem_filterMap.mpr
        refine ⟨1, ?_, ?_⟩
        · simp [pagesToParse, List.mem_range']
        · rw [if_pos ⟨le_refl 1, by simp⟩]
          norm_num
      have hrne : ¬ (renderedPages (p :: rest) (pagesToParse (some []) (p :: rest).length)).isEmpty = true := by
        rw [List.isEmpty_iff]
        exact List.ne_nil_of_mem hmem
      simp only [fileToGenerativePart]
      rw [if_neg hrne]
      rfl

/-- Witness for C10: a nonempty one-page document renders successfully
under the empty selection. -/
theorem emptySelection_defaults_allPages_witness :
    (fileToGenerativePart (.pdf [⟨10, 20⟩]) (some [])).1.isOk = true :=
  (emptySelection_defaults_allPages [⟨10, 20⟩]).2.2 (List.cons_ne_nil _ _)

/-! ## Text-parser value lemmas.

Batteries marks the `Rat` arithmetic operations `@[irreducible]`; they are
locally re-enabled so that `decide` can evaluate the parsers on concrete
strings. -/

section RatEval

attribute [local semireducible] Rat.add Rat.mul Rat.sub Rat.inv Rat.ofScientific

theorem parseNum_nonneg (cs : List Char) : 0 ≤ parseNum cs := by
  unfold parseNum
  positivity

theorem roundTo1_nonneg (q : Rat) (h : 0 ≤ q) : 0 ≤ roundTo1 q := by
  unfold roundTo1
  have hf : (0 : Int) ≤ ⌊q * 10 + 1 / 2⌋ := by
    apply Int.le_floor.mpr
    push_cast
    linarith
  have : (0 : Rat) ≤ ((⌊q * 10 + 1 / 2⌋ : Int) : Rat) := by exact_mod_cast hf
  linarith

/-- Claim C7: the duration parser sums an independently matched years
quantity with a months quantity divided by 12 ("5 years 6 months" gives
5.5, "2 years 6 months" gives 2.5, "6 months" gives 0.5); a bare number
alone is taken as years ("3" gives 3); the empty string and unparseable
input yield 0; the result is rounded to one decimal place and is always
non-negative. -/
theorem durationParser_spec :
    parseExperienceToNumber "5 years 6 months" = 5.5 ∧
    parseExperienceToNumber "6 months" = 0.5 ∧
    parseExperienceToNumber "3" = 3 ∧
    parseExperienceToNumber "" = 0 ∧
    parseExperienceToNumber "garbage" = 0 ∧
    parseExperienceToNumber "2 years 6 months" = 2.5 ∧
    ∀ s : String, 0 ≤ parseExperienceToNumber s := by
  refine ⟨by decide, by decide, by decide, by decide, by decide, by decide, ?_⟩
  intro s
  unfold parseExperienceToNumber
  split
  · norm_num
  · apply roundTo1_nonneg
    split
    · split
      · exact parseNum_nonneg _
      · norm_num
    · apply add_nonneg
      · split
        · exact parseNum_nonneg _
        · norm_num
      · apply div_nonneg
        · split
          · exact parseNum_nonneg _
          · norm_num
        · norm_num

/-- Claim C8: the compensation parser strips currency characters and
separators, lowercases, and applies exactly one pattern with precedence
lakh > k > bare number: "12 LPA" gives 1200000, "50k" gives 50000,
"$80,000" gives 80000, the empty string 0; whenever a lakh pattern is
found anywhere in the cleaned string, the result is that number times
100000, regardless of any other number present. -/
theorem compensationParser_spec :
    parseCTC "12 LPA" = 1200000 ∧
    parseCTC "50k" = 50000 ∧
    parseCTC "$80,000" = 80000 ∧
    parseCTC "" = 0 ∧
    ∀ (s : String) (n : List Char),
      findUnit matchNumCTC 'l'
        ((s.data.map jsToLower).filter (fun c => ¬ (c = ',' ∨ c = '₹' ∨ c = '$'))) = some n →
      parseCTC s = parseNum n * 100000 := by
  refine ⟨by decide, by decide, by decide, by decide, ?_⟩
  intro s n h
  unfold parseCTC
  split
  · rename_i hs
    rw [hs] at h
    have hnone : findUnit matchNumCTC 'l'
        ((("" : String).data.map jsToLower).filter
          (fun c => ¬ (c = ',' ∨ c = '₹' ∨ c = '$'))) = none := rfl
    rw [hnone] at h
    exact Option.noConfusion h
  · simp only [h]

/-- Witness for C8: "5 l 9" holds both a lakh pattern and a later bare
number; the lakh pattern wins. -/
theorem compensationParser_spec_witness : parseCTC "5 l 9" = 500000 := by
  have h := compensationParser_spec.2.2.2.2 "5 l 9" ['5'] rfl
  rw [h]
  decide

end RatEval

end App
